import Mathlib

/-!
# tempo: date expressions, ticket lookup and worklog arithmetic

A shallow embedding of the command-line timesheet helper (`main.go`, `jira.go`,
`tempo.go`, `timesheet.go`) together with the properties proved about it.

Conventions of the embedding:

* Go strings are lists of characters (`List Char`); string literals are written
  `"week".toList`.
* Go `int` and `time.Duration` are 64-bit two's complement integers. They are
  embedded as `Int`, and every arithmetic operation of the source that can leave
  the 64-bit range is followed by `wrapInt64`.
* A `time.Time` is an instant (nanoseconds since the Unix epoch, unbounded) together
  with its location. A location gives the UTC offset in force at every instant, so
  that `Weekday` and `Format` of a shifted instant use the offset in force at the new
  instant (daylight saving included).
* `log.Fatal` ends the process; functions that may call it return `Except Fatal _`.
  A panic of the Go runtime is the outcome `panic`.
* Calls to the remote services are recorded in a trace of `Call`s, and the answers
  of the services are supplied by an arbitrary `Env` that may depend on the trace.
-/

namespace Tempo

/-! ## Machine integers -/

/-- Smallest value of Go's `int` on 64-bit platforms. -/
def minInt64 : Int := -9223372036854775808

/-- Largest value of Go's `int` on 64-bit platforms. -/
def maxInt64 : Int := 9223372036854775807

/-- Two's complement wrap-around of a mathematical integer into the `int64` range. -/
def wrapInt64 (x : Int) : Int :=
  (x + 9223372036854775808) % 18446744073709551616 - 9223372036854775808

/-- Go `a * b` on `int` / `time.Duration`. -/
def mulInt64 (a b : Int) : Int := wrapInt64 (a * b)

/-- Go `a + b` on `int`. -/
def addInt64 (a b : Int) : Int := wrapInt64 (a + b)

/-- Go `a / b` on `int`: the quotient is truncated toward zero. -/
def quoInt64 (a b : Int) : Int := wrapInt64 (Int.tdiv a b)

/-! ## Strings -/

/-- Go `strings.HasPrefix`. -/
def HasPrefix (s pre : List Char) : Bool := pre.isPrefixOf s

/-- Go `strings.TrimPrefix`. -/
def TrimPrefix (s pre : List Char) : List Char :=
  if HasPrefix s pre then s.drop pre.length else s

/-- Go `strings.ReplaceAll(s, old, new)` for a one-byte `old` and a one-byte `new`,
the only way the program calls it (`"/"` to `"-"`). -/
def ReplaceAll (s : List Char) (old new : Char) : List Char :=
  s.map fun c => if c = old then new else c

/-- Go `strings.Join`. -/
def Join (elems : List (List Char)) (sep : List Char) : List Char :=
  match elems with
  | [] => []
  | [e] => e
  | e :: rest => e ++ sep ++ Join rest sep

/-- An ASCII decimal digit. -/
def isDigit (c : Char) : Bool := decide ('0' ≤ c) && decide (c ≤ '9')

/-- Value of an ASCII decimal digit (`c - '0'`). -/
def digitVal (c : Char) : Nat := c.toNat - 48

/-- Value of a string of decimal digits, most significant digit first. -/
def digitsValue (ds : List Char) : Nat :=
  ds.foldl (fun n c => n * 10 + digitVal c) 0

/-- Largest value of Go's `uint64`. -/
def maxUint64 : Nat := 18446744073709551615

/-- The two errors of `strconv`: `ErrSyntax` and `ErrRange`. -/
inductive ConvErr where
  | ErrSyntax
  | ErrRange
deriving DecidableEq, Repr

/-- The digit loop of Go `strconv.ParseUint(s, 10, 64)`, with `n` the value read so far.
A character that is not a decimal digit ends the loop with a syntax error and the value
0. A digit that would take the value past `maxUint64` ends the loop at once with a range
error and the value `maxUint64`, whatever follows it. -/
def parseUintLoop : List Char → Nat → Nat × Option ConvErr
  | [], n => (n, none)
  | c :: cs, n =>
    if !isDigit c then (0, some .ErrSyntax)
    else if 1844674407370955162 ≤ n then (maxUint64, some .ErrRange)
    else if maxUint64 < n * 10 + digitVal c then (maxUint64, some .ErrRange)
    else parseUintLoop cs (n * 10 + digitVal c)

/-- Go `strconv.ParseUint(s, 10, 64)`. -/
def ParseUint (s : List Char) : Nat × Option ConvErr :=
  if s.isEmpty then (0, some .ErrSyntax) else parseUintLoop s 0

/-- Go `strconv.ParseInt(s, 10, 0)` on a 64-bit platform: an optional sign, then
`ParseUint`. A syntax error gives the value 0; a range error, of `ParseUint` or of the
signed range, gives the nearest bound of `int64`. -/
def ParseInt (s : List Char) : Int × Option ConvErr :=
  if s.isEmpty then (0, some .ErrSyntax)
  else
    let signed : Bool × List Char :=
      match s with
      | '+' :: r => (false, r)
      | '-' :: r => (true, r)
      | _ => (false, s)
    match ParseUint signed.2 with
    | (_, some .ErrSyntax) => (0, some .ErrSyntax)
    | (un, _) =>
      if !signed.1 && decide (9223372036854775808 ≤ un) then (maxInt64, some .ErrRange)
      else if signed.1 && decide (9223372036854775808 < un) then (minInt64, some .ErrRange)
      else (if signed.1 then -(un : Int) else (un : Int), none)

/-- Go `strconv.Atoi`: the value and whether the returned error is nil. Its fast path for
short strings computes the same value and error as `ParseInt(s, 10, 0)`, to which it
falls back for the other strings. -/
def Atoi (s : List Char) : Int × Bool :=
  ((ParseInt s).1, (ParseInt s).2.isNone)

/-! ## Command arguments (`cli.Args`) -/

/-- The method `cli.Args.First`: the first argument, or the empty string. -/
def First (args : List (List Char)) : List Char :=
  match args with
  | [] => []
  | a :: _ => a

/-- The method `cli.Args.Tail`: everything after the first argument. -/
def Tail (args : List (List Char)) : List (List Char) :=
  if 2 ≤ args.length then args.drop 1 else []

/-! ## Time -/

/-- Go `time.Weekday`. -/
inductive Weekday where
  | Sunday | Monday | Tuesday | Wednesday | Thursday | Friday | Saturday
deriving DecidableEq, Repr

/-- Weekday with the given number, `Sunday = 0`, taken modulo 7. -/
def Weekday.ofInt (n : Int) : Weekday :=
  match (n % 7).toNat with
  | 0 => .Sunday
  | 1 => .Monday
  | 2 => .Tuesday
  | 3 => .Wednesday
  | 4 => .Thursday
  | 5 => .Friday
  | _ => .Saturday

/-- Go `Weekday.String`. -/
def Weekday.String : Weekday → List Char
  | .Sunday => "Sunday".toList
  | .Monday => "Monday".toList
  | .Tuesday => "Tuesday".toList
  | .Wednesday => "Wednesday".toList
  | .Thursday => "Thursday".toList
  | .Friday => "Friday".toList
  | .Saturday => "Saturday".toList

/-- Go `time.Location`: the UTC offset (seconds east) in force at every instant. A
location has a first transition, at Unix time `start`; before it the offset is
`initial`, from it on the offset at Unix time `s` is `later s`. A location without
transitions has a constant `later`. -/
structure Location where
  initial : Int
  start : Int
  later : Int → Int

/-- Go `Location.lookup`: the offset in force at Unix time `sec`. -/
def Location.lookup (l : Location) (sec : Int) : Int :=
  if sec < l.start then l.initial else l.later sec

/-- Go `time.UTC`. -/
def UTC : Location := { initial := 0, start := 0, later := fun _ => 0 }

/-- Go `time.Time`: an instant and its location. -/
structure Time where
  unixNano : Int
  loc : Location

/-- Go `time.Hour`, in nanoseconds. -/
def Hour : Int := 3600000000000

/-- The constant `day = 24 * time.Hour` of `parseArgs`. -/
def day : Int := 24 * Hour

/-- Go `Time.Add`: the instant moves, the location stays. -/
def Time.Add (t : Time) (d : Int) : Time :=
  { t with unixNano := t.unixNano + d }

/-- Go `Time.Unix`: whole seconds since the Unix epoch. -/
def Time.unixSec (t : Time) : Int := t.unixNano / 1000000000

/-- Days since 1970-01-01 of the local calendar date of `t`, with the offset in force at
`t`. -/
def Time.localDay (t : Time) : Int :=
  (t.unixSec + t.loc.lookup t.unixSec) / 86400

/-- Go `Time.Weekday`; 1970-01-01 was a Thursday. -/
def Time.Weekday (t : Time) : Weekday :=
  Weekday.ofInt (t.localDay + 4)

/-- Number of whole days by which the local date of `t` lies after a Monday. -/
def Time.sinceMonday (t : Time) : Nat := ((t.localDay + 3) % 7).toNat

/-! ### Calendar dates -/

/-- Go `isLeap`. -/
def isLeap (year : Int) : Bool :=
  decide (year % 4 = 0) && (decide (year % 100 ≠ 0) || decide (year % 400 = 0))

/-- Go `daysIn`: the number of days of a month of a year. -/
def daysIn (month : Nat) (year : Int) : Nat :=
  if month = 2 then (if isLeap year then 29 else 28)
  else if month = 4 ∨ month = 6 ∨ month = 9 ∨ month = 11 then 30
  else 31

/-- Days since 1970-01-01 of the proleptic Gregorian date `year-month-day`. -/
def daysFromCivil (year : Int) (month day : Nat) : Int :=
  let y : Int := if month ≤ 2 then year - 1 else year
  let era : Int := y / 400
  let yoe : Int := y - era * 400
  let mp : Int := if 2 < month then (month : Int) - 3 else (month : Int) + 9
  let doy : Int := (153 * mp + 2) / 5 + (day : Int) - 1
  let doe : Int := yoe * 365 + yoe / 4 - yoe / 100 + doy
  era * 146097 + doe - 719468

/-- Proleptic Gregorian `(year, month, day)` of a day number counted from 1970-01-01. -/
def civilFromDays (z : Int) : Int × Nat × Nat :=
  let z := z + 719468
  let era : Int := z / 146097
  let doe : Int := z - era * 146097
  let yoe : Int := (doe - doe / 1460 + doe / 36524 - doe / 146096) / 365
  let doy : Int := doe - (365 * yoe + yoe / 4 - yoe / 100)
  let mp : Int := (5 * doy + 2) / 153
  let d : Int := doy - (153 * mp + 2) / 5 + 1
  let m : Int := if mp < 10 then mp + 3 else mp - 9
  let y : Int := yoe + era * 400
  (if m ≤ 2 then y + 1 else y, m.toNat, d.toNat)

/-- Go `time.Date(year, month, day, 0, 0, 0, 0, time.UTC)` for an in-range month and day. -/
def Date (year : Int) (month day : Nat) : Time :=
  { unixNano := daysFromCivil year month day * 86400 * 1000000000, loc := UTC }

/-- A layout string of the shape `2006<sep>01<sep>02`: four-digit year, two-digit month,
two-digit day, separated by the byte `sep`. -/
structure DateLayout where
  sep : Char
deriving DecidableEq, Repr

/-- The layout `"2006/01/02"` (`jiraDateLayout` in `jira.go`, also the first layout tried
by `parseArgs`). -/
def jiraDateLayout : DateLayout := { sep := '/' }

/-- The layout `"2006-01-02"` (`tempoDateLayout` in `tempo.go`, also the second layout
tried by `parseArgs`). -/
def tempoDateLayout : DateLayout := { sep := '-' }

/-- Go `utod` inside `appendInt`: the digit character of `u < 10`. -/
def utod (u : Nat) : Char := Char.ofNat (48 + u)

/-- Decimal digits of `u` pushed in front of `acc`; `fuel` bounds the number of digits. -/
def decimalDigits : Nat → Nat → List Char → List Char
  | 0, _, acc => acc
  | fuel + 1, u, acc =>
    if u < 10 then utod u :: acc
    else decimalDigits fuel (u / 10) (utod (u % 10) :: acc)

/-- Go `appendInt(nil, x, width)`: a minus sign for negative `x`, then the decimal digits
of `|x|` padded with zeros on the left to at least `width` digits. -/
def appendInt (x : Int) (width : Nat) : List Char :=
  let u : Nat := x.natAbs
  let sign : List Char := if x < 0 then ['-'] else []
  if width = 2 ∧ u < 100 then sign ++ [utod (u / 10), utod (u % 10)]
  else if width = 4 ∧ u < 10000 then
    sign ++ [utod (u / 1000), utod (u / 100 % 10), utod (u / 10 % 10), utod (u % 10)]
  else
    let ds := decimalDigits (u + 1) u []
    sign ++ List.replicate (width - ds.length) '0' ++ ds

/-- Go `Time.Format` for a layout `2006<sep>01<sep>02`. -/
def Time.Format (t : Time) (layout : DateLayout) : List Char :=
  let ymd := civilFromDays t.localDay
  appendInt ymd.1 4 ++ [layout.sep] ++ appendInt ymd.2.1 2 ++ [layout.sep]
    ++ appendInt ymd.2.2 2

/-- Go `getnum(s, true)`: exactly two leading digits and the rest of the string. -/
def getnum (s : List Char) : Option (Nat × List Char) :=
  match s with
  | a :: b :: rest =>
    if isDigit a && isDigit b then some (digitVal a * 10 + digitVal b, rest) else none
  | _ => none

/-- Go `skip(value, sep)`: drop the literal byte of the layout from the value. -/
def skip (value : List Char) (sep : Char) : Option (List Char) :=
  match value with
  | c :: rest => if c = sep then some rest else none
  | [] => none

/-- Go `time.Parse(layout, value)` for a layout `2006<sep>01<sep>02`; `none` stands for a
non-nil error. The year is four digits, month and day two digits each, the month must be
in `1..12`, the day in `1..daysIn month year`, and no text may follow. -/
def Parse (layout : DateLayout) (value : List Char) : Option Time :=
  match value with
  | y0 :: y1 :: y2 :: y3 :: rest =>
    if isDigit y0 && isDigit y1 && isDigit y2 && isDigit y3 then
      let year : Nat := digitsValue [y0, y1, y2, y3]
      match skip rest layout.sep with
      | none => none
      | some rest =>
        match getnum rest with
        | none => none
        | some (month, rest) =>
          if month = 0 ∨ 12 < month then none
          else
            match skip rest layout.sep with
            | none => none
            | some rest =>
              match getnum rest with
              | none => none
              | some (d, rest) =>
                if rest ≠ [] then none
                else if d < 1 ∨ daysIn month year < d then none
                else some (Date year month d)
    else none
  | _ => none

/-! ## `main.go` -/

/-- The constant `defaultHours`. -/
def defaultHours : Int := 8

/-- The constant `week` of `parseArgs`. -/
def week : List Char := "week".toList

/-- The constant `today` of `parseArgs`. -/
def today : List Char := "today".toList

/-- The two ways `parseArgs` ends the process through `log.Fatal`. -/
inductive Fatal where
  | unrecognizedDate (dateArg : List Char)
  | unrecognizedHours (hoursArg : List Char)
deriving DecidableEq, Repr

/-- The loop `for date.Weekday() != time.Monday { date = date.Add(-1 * day) }`. It ends
in every location: each step goes back 24 hours, and before the first transition of the
location the offset no longer changes. -/
def rewindToMonday (date : Time) : Time :=
  if date.Weekday = .Monday then date else rewindToMonday (date.Add (-1 * day))
termination_by
  ((date.unixSec - date.loc.start) / 86400 + 1).toNat * 7 +
    (((date.unixSec + date.loc.initial) / 86400 + 3) % 7).toNat
decreasing_by
  rename_i h
  have hsec : (date.Add (-1 * day)).unixSec = date.unixSec - 86400 := by
    simp only [Time.Add, Time.unixSec, day, Hour]
    omega
  have hloc : (date.Add (-1 * day)).loc = date.loc := rfl
  rw [hsec, hloc]
  by_cases hs : date.unixSec < date.loc.start
  · have hne : ((date.unixSec + date.loc.initial) / 86400 + 4) % 7 ≠ 1 := by
      intro h1
      apply h
      simp [Time.Weekday, Time.localDay, Location.lookup, hs, Weekday.ofInt, h1]
    omega
  · omega

/-- The loop `for i := 0; i < 5; i++ { dates = append(dates, date.Add(time.Duration(i) * day)) }`. -/
def appendWeekdays (date : Time) (dates : List Time) : List Time :=
  (List.range 5).foldl (fun ds i => ds ++ [date.Add (mulInt64 (i : Int) day)]) dates

/-- The function `parseArgs` of `main.go`. `now` is the value of `time.Now()` and `args`
the positional arguments `c.Args()` of the command. -/
def parseArgs (now : Time) (args : List (List Char)) : Except Fatal (List Time × Int) :=
  let dateArg := First args
  let parsed : Except Fatal (List Time) :=
    if HasPrefix dateArg week then
      let modifier := TrimPrefix dateArg week
      let offset := (Atoi modifier).1
      let date := rewindToMonday now
      let date := date.Add (mulInt64 (mulInt64 offset 7) day)
      .ok (appendWeekdays date [])
    else if HasPrefix dateArg today then
      let modifier := TrimPrefix dateArg today
      let offset := (Atoi modifier).1
      let date := now.Add (mulInt64 offset day)
      .ok [date]
    else
      match Parse jiraDateLayout dateArg with
      | some date => .ok [date]
      | none =>
        match Parse tempoDateLayout dateArg with
        | some date => .ok [date]
        | none => .error (.unrecognizedDate dateArg)
  match parsed with
  | .error e => .error e
  | .ok dates =>
    let tail := Tail args
    if 1 < tail.length then
      match Atoi (First tail) with
      | (hours, true) => .ok (dates, hours)
      | (_, false) => .error (.unrecognizedHours (First tail))
    else .ok (dates, defaultHours)

/-! ## Remote services

The two REST services are outside the program. Every request the program makes is
appended to a trace, and the answer is taken from an environment that may depend on the
trace so far. Text written to standard output is not part of the model. -/

/-- The fields of `jirago.User` the program reads. -/
structure User where
  AccountID : List Char
  EmailAddress : List Char
deriving DecidableEq, Repr

/-- The fields of `jirago.IssueFields` the program sets: `Assignee.AccountID`,
`Project.Key`, `Summary` and `Type.Name`. -/
structure IssueFields where
  AssigneeAccountID : List Char
  ProjectKey : List Char
  Summary : List Char
  TypeName : List Char
deriving DecidableEq, Repr

/-- The fields of `jirago.Issue` the program uses; `Fields` is a pointer and may be nil. -/
structure Issue where
  Key : List Char
  Self : List Char
  Fields : Option IssueFields
deriving DecidableEq, Repr

/-- The type `JiraIssue`, a wrapper of `*jirago.Issue`. -/
abbrev JiraIssue := Issue

/-- The type `NewWorklog` of `tempo.go`. -/
structure NewWorklog where
  IssueKey : List Char
  TimeSpentSeconds : Int
  BillableSeconds : Int
  StartDate : List Char
  StartTime : List Char
  Description : List Char
  AuthorAccountID : List Char
  RemainingEstimateSeconds : Int
  Attributes : List (List Char × List Char)
deriving DecidableEq, Repr

/-- The fields of the type `Worklog` of `tempo.go` that carry the logged time. -/
structure Worklog where
  IssueKey : List Char
  TimeSpentSeconds : Int
  BillableSeconds : Int
  StartDate : List Char
  StartTime : List Char
  Description : List Char
  AuthorAccountID : List Char
deriving DecidableEq, Repr

/-- An HTTP request as `TempoClient.Do` builds it. The body is kept as the value that was
JSON-encoded. -/
structure Request where
  Method : List Char
  URL : List Char
  ContentType : List Char
  Authorization : List Char
  Body : Option NewWorklog
deriving DecidableEq, Repr

/-- An HTTP response: the status code, the text of `httputil.DumpResponse`, and the result
of decoding the body into `WorklogsRes` (its `Results`, or the decoding error). -/
structure Response where
  StatusCode : Int
  Dump : List Char
  Results : Except (List Char) (List Worklog)

/-- A request made to one of the two services. -/
inductive Call where
  | issueCreate (issueReq : Issue)
  | issueSearch (jql : List Char)
  | tempo (req : Request)
deriving DecidableEq, Repr

/-- What a call of the go-jira library returns: a value with a nil error, or an error
(its text) with the response `res`. The response is nil (`none`) when the request never
got an answer, a transport failure; otherwise it is kept as its dump. -/
inductive JiraAnswer (α : Type) where
  | ok (value : α)
  | error (err : List Char) (res : Option (List Char))

/-- How a call inside the program ends: with a value and a nil error, with a non-nil
error (its text), or in a panic of the Go runtime. -/
inductive Outcome (α : Type) where
  | ok (value : α)
  | error (err : List Char)
  | panic

/-- The answers of the services, each given the trace of the calls made before.
`newRequest` is the error of `http.NewRequest(method, url, body)`, a function of the
method and the URL, left open except that a POST to the constant worklogs URL is
accepted. An error of `http` is a transport failure. `timeString` is the text `%s` prints
for a `time.Time`. -/
structure Env where
  issueCreate : List Call → Issue → JiraAnswer Issue
  issueSearch : List Call → List Char → JiraAnswer (List Issue)
  newRequest : List Char → List Char → Option (List Char)
  newRequest_worklogs :
    newRequest "POST".toList "https://api.tempo.io/core/3/worklogs".toList = none
  http : List Call → Request → Except (List Char) Response
  timeString : Time → List Char

/-! ## `jira.go` -/

/-- The type `JiraClient`, without the HTTP client. -/
structure JiraClient where
  MyUser : User
  ProjectKey : List Char
deriving DecidableEq, Repr

/-- The function `jiraResponseErr` for a non-nil `err` (for a nil `err` it returns nil
without looking at `res`). It reads `res.Response` to dump it, which panics when `res` is
nil; otherwise it returns the error `jira error: <err>`. -/
def jiraResponseErr (res : Option (List Char)) (err : List Char) : Outcome Unit :=
  match res with
  | none => .panic
  | some _ => .error ("jira error: ".toList ++ err)

/-- The method `JiraClient.issueName`. -/
def JiraClient.issueName (_c : JiraClient) (date : Time) : List Char :=
  date.Format jiraDateLayout ++ " ".toList ++ date.Weekday.String

/-- The value `issueReq` built by `JiraClient.createIssue`. -/
def issueReq (accountID projectKey issueName : List Char) : Issue :=
  { Key := [], Self := [],
    Fields := some { AssigneeAccountID := accountID, ProjectKey := projectKey,
                     Summary := issueName, TypeName := "Task".toList } }

/-- The method `JiraClient.createIssue`. -/
def JiraClient.createIssue (env : Env) (_c : JiraClient)
    (accountID projectKey issueName : List Char) (tr : List Call) :
    Outcome Issue × List Call :=
  let req := issueReq accountID projectKey issueName
  match env.issueCreate tr req with
  | .error err res =>
    match jiraResponseErr res err with
    | .error e => (.error e, tr ++ [.issueCreate req])
    | _ => (.panic, tr ++ [.issueCreate req])
  | .ok issue => (.ok { issue with Fields := req.Fields }, tr ++ [.issueCreate req])

/-- The method `JiraClient.CreateIssue`. The library returns a non-nil issue whenever it
returns no error, so the `log.Fatal` branch for a nil issue is not reached. -/
def JiraClient.CreateIssue (env : Env) (c : JiraClient) (date : Time) (tr : List Call) :
    Outcome JiraIssue × List Call :=
  match c.createIssue env c.MyUser.AccountID c.ProjectKey (c.issueName date) tr with
  | (.ok issue, tr) => (.ok issue, tr)
  | (.error err, tr) => (.error err, tr)
  | (.panic, tr) => (.panic, tr)

/-- The query string `jql` built by `JiraClient.FindIssue`. -/
def findIssueJQL (email issueName issueNameHyphenated projectKey : List Char) : List Char :=
  "assignee = \"".toList ++ email ++ "\" AND (summary ~ \"".toList ++ issueName
    ++ "\" OR summary ~ \"".toList ++ issueNameHyphenated ++ "\") AND project = \"".toList
    ++ projectKey ++ "\"".toList

/-- The loop `for _, iss := range issues { keys = append(keys, iss.Key) }`. -/
def collectKeys (issues : List Issue) : List (List Char) :=
  issues.foldl (fun keys iss => keys ++ [iss.Key]) []

/-- The method `JiraClient.FindIssue`. -/
def JiraClient.FindIssue (env : Env) (c : JiraClient) (email : List Char) (date : Time)
    (tr : List Call) : Outcome JiraIssue × List Call :=
  let projectKey := c.ProjectKey
  let issueName := c.issueName date
  let issueNameHyphenated := ReplaceAll issueName '/' '-'
  let jql := findIssueJQL email issueName issueNameHyphenated projectKey
  match env.issueSearch tr jql with
  | .error err res =>
    match jiraResponseErr res err with
    | .error e => (.error e, tr ++ [.issueSearch jql])
    | _ => (.panic, tr ++ [.issueSearch jql])
  | .ok issues =>
    match issues with
    | [] =>
      (.error ("found no issue matching asignee=\x27".toList ++ email
        ++ "\x27 and summary=\x27".toList ++ issueName ++ "\x27 and project=\x27".toList
        ++ projectKey ++ "\x27".toList), tr ++ [.issueSearch jql])
    | [i] => (.ok i, tr ++ [.issueSearch jql])
    | _ =>
      let keys := collectKeys issues
      (.error ("found more than one issue (expected 1) matching email=\x27".toList ++ email
        ++ "\x27 and date=\x27".toList ++ env.timeString date ++ "\x27: ".toList
        ++ Join keys ",".toList), tr ++ [.issueSearch jql])

/-! ## `tempo.go` -/

/-- The constant `tempoAPI`. -/
def tempoAPI : List Char := "https://api.tempo.io/core/3".toList

/-- The type `TempoClient`. -/
structure TempoClient where
  token : List Char
  jiraAccountID : List Char
deriving DecidableEq, Repr

/-- The closure `wrap` of `TempoClient.Do`: `errors.Wrap` with the request in the text. -/
def wrapDoErr (method resource err : List Char) : List Char :=
  "while doing request (".toList ++ method ++ " ".toList ++ resource ++ "): ".toList ++ err

/-- The method `TempoClient.Do`. When `http.NewRequest` fails nothing is sent. -/
def TempoClient.Do (env : Env) (c : TempoClient) (method resource : List Char)
    (body : Option NewWorklog) (tr : List Call) : Except (List Char) Response × List Call :=
  let resource1 := if HasPrefix resource "/".toList then resource else "/".toList ++ resource
  let endpoint := tempoAPI ++ resource1
  match env.newRequest method endpoint with
  | some err => (.error (wrapDoErr method resource1 err), tr)
  | none =>
    let req : Request :=
      { Method := method, URL := endpoint, ContentType := "application/json".toList,
        Authorization := "Bearer ".toList ++ c.token, Body := body }
    match env.http tr req with
    | .error err => (.error (wrapDoErr method resource1 err), tr ++ [.tempo req])
    | .ok res =>
      let success := decide (200 ≤ res.StatusCode) && decide (res.StatusCode < 300)
      if !success then
        (.error (wrapDoErr method resource1
          ("unsuccessful status (".toList ++ appendInt res.StatusCode 0
            ++ "). \nResponse: \n".toList ++ res.Dump)), tr ++ [.tempo req])
      else (.ok res, tr ++ [.tempo req])

/-- The value `w` built by `TempoClient.LogDay`. -/
def TempoClient.newWorklog (c : TempoClient) (date : Time) (hours : Int)
    (jiraIssueKey : List Char) : NewWorklog :=
  let loggedSeconds := mulInt64 (mulInt64 hours 60) 60
  { IssueKey := jiraIssueKey,
    TimeSpentSeconds := loggedSeconds,
    BillableSeconds := loggedSeconds,
    StartDate := date.Format tempoDateLayout,
    StartTime := "00:00:00".toList,
    Description := "Working on issue ".toList ++ jiraIssueKey ++ ".".toList,
    AuthorAccountID := c.jiraAccountID,
    RemainingEstimateSeconds := 0,
    Attributes := [] }

/-- The method `TempoClient.LogDay`; `none` is a nil error. `json.Marshal` does not fail
on a `NewWorklog`. -/
def TempoClient.LogDay (env : Env) (c : TempoClient) (date : Time) (hours : Int)
    (jiraIssueKey : List Char) (tr : List Call) : Option (List Char) × List Call :=
  let w := c.newWorklog date hours jiraIssueKey
  match c.Do env "POST".toList "/worklogs".toList (some w) tr with
  | (.error err, tr) => (some err, tr)
  | (.ok _, tr) => (none, tr)

/-- The loop `for _, worklog := range worklogs.Results { loggedSeconds += worklog.BillableSeconds }`
started at `loggedSeconds := 0`. -/
def sumBillableSeconds (results : List Worklog) : Int :=
  results.foldl (fun loggedSeconds worklog => addInt64 loggedSeconds worklog.BillableSeconds) 0

/-- The method `TempoClient.GetLoggedHours`: the hours, the error (`none` is nil) and the
trace. -/
def TempoClient.GetLoggedHours (env : Env) (c : TempoClient) (jiraIssueKey : List Char)
    (tr : List Call) : (Int × Option (List Char)) × List Call :=
  let endpoint := "/worklogs?issue=".toList ++ jiraIssueKey
  match c.Do env "GET".toList endpoint none tr with
  | (.error err, tr) => ((0, some err), tr)
  | (.ok res, tr) =>
    match res.Results with
    | .error err => ((0, some err), tr)
    | .ok results =>
      let loggedSeconds := sumBillableSeconds results
      ((quoInt64 (quoInt64 loggedSeconds 60) 60, none), tr)

/-! ## `timesheet.go` -/

/-- The type `Timesheet`. -/
structure Timesheet where
  tempo : TempoClient
  jira : JiraClient
deriving DecidableEq, Repr

/-- The method `Timesheet.Log`; `ok ()` is a nil error. -/
def Timesheet.Log (env : Env) (t : Timesheet) (date : Time) (hours : Int) (tr : List Call) :
    Outcome Unit × List Call :=
  match t.jira.CreateIssue env date tr with
  | (.error err, tr) => (.error err, tr)
  | (.panic, tr) => (.panic, tr)
  | (.ok issue, tr) =>
    match t.tempo.LogDay env date hours issue.Key tr with
    | (some err, tr) => (.error err, tr)
    | (none, tr) => (.ok (), tr)

/-- The method `Timesheet.See`; `ok ()` is a nil error. -/
def Timesheet.See (env : Env) (t : Timesheet) (date : Time) (tr : List Call) :
    Outcome Unit × List Call :=
  match t.jira.FindIssue env t.jira.MyUser.EmailAddress date tr with
  | (.error err, tr) => (.error err, tr)
  | (.panic, tr) => (.panic, tr)
  | (.ok issue, tr) =>
    match t.tempo.GetLoggedHours env issue.Key tr with
    | ((_, some err), tr) => (.error err, tr)
    | ((_, none), tr) => (.ok (), tr)

/-- How a command ends: it returns nil, `log.Fatal` ends the process, or the Go runtime
panics. -/
inductive Exit where
  | done
  | fatal (e : Fatal)
  | panic
deriving DecidableEq, Repr

/-- The loop `for _, date := range dates { err := timesheet.Log(date, hours) ... }` of
`ActionLog`: an error of `Log` is printed and the loop goes on; a panic ends the
process. -/
def logEach (env : Env) (timesheet : Timesheet) (hours : Int) :
    List Time → List Call → Exit × List Call
  | [], tr => (.done, tr)
  | date :: rest, tr =>
    match timesheet.Log env date hours tr with
    | (.panic, tr) => (.panic, tr)
    | (_, tr) => logEach env timesheet hours rest tr

/-- The loop `for _, date := range dates { err := timesheet.See(date) ... }` of
`ActionSee`. -/
def seeEach (env : Env) (timesheet : Timesheet) :
    List Time → List Call → Exit × List Call
  | [], tr => (.done, tr)
  | date :: rest, tr =>
    match timesheet.See env date tr with
    | (.panic, tr) => (.panic, tr)
    | (_, tr) => seeEach env timesheet rest tr

/-- The function `ActionLog` of `main.go`, for the timesheet `NewTimesheet` returned: how
the command ends and the trace after it. -/
def ActionLog (env : Env) (timesheet : Timesheet) (now : Time) (args : List (List Char))
    (tr : List Call) : Exit × List Call :=
  match parseArgs now args with
  | .error e => (.fatal e, tr)
  | .ok (dates, hours) => logEach env timesheet hours dates tr

/-- The function `ActionSee` of `main.go`, for the timesheet `NewTimesheet` returned. -/
def ActionSee (env : Env) (timesheet : Timesheet) (now : Time) (args : List (List Char))
    (tr : List Call) : Exit × List Call :=
  match parseArgs now args with
  | .error e => (.fatal e, tr)
  | .ok (dates, _) => seeEach env timesheet dates tr

/-! ## Reference notions used in the statements -/

/-- The Monday of the week of `now`: `now` moved back by the whole days elapsed since
Monday, keeping the time of day. -/
def mondayOf (now : Time) : Time := now.Add (-(now.sinceMonday : Int) * day)

/-- The five instants Monday to Friday of the week of `now` shifted by `n` weeks: the
Monday of the week of `now` moved by `7 * n` days, followed by the next four days. -/
def weekOf (now : Time) (n : Int) : List Time :=
  let monday := (mondayOf now).Add (7 * n * day)
  [monday, monday.Add day, monday.Add (2 * day), monday.Add (3 * day), monday.Add (4 * day)]

/-- The UTC offset of the location of `now` is the same, at every instant within `days`
days of `now`, as at `now`. -/
def SteadyOffset (now : Time) (days : Int) : Prop :=
  ∀ s : Int, now.unixSec - days * 86400 ≤ s → s ≤ now.unixSec + days * 86400 →
    now.loc.lookup s = now.loc.lookup now.unixSec

/-- A string that is not a number for its form: after an optional sign it is empty, or it
has a character that is not a decimal digit and the digits in front of that character (if
any) have a value of at most `maxUint64`. -/
def NonNumeric (s : List Char) : Bool :=
  let body : List Char :=
    match s with
    | '+' :: r => r
    | '-' :: r => r
    | _ => s
  body.isEmpty ||
    (!(body.dropWhile isDigit).isEmpty && decide (digitsValue (body.takeWhile isDigit) ≤ maxUint64))

/-- The text `YYYY<sep>MM<sep>DD` of a calendar date: four digits of the year, two of the
month, two of the day. -/
def dateToken (sep : Char) (y m d : Nat) : List Char :=
  [utod (y / 1000), utod (y / 100 % 10), utod (y / 10 % 10), utod (y % 10), sep,
    utod (m / 10), utod (m % 10), sep, utod (d / 10), utod (d % 10)]

/-- The mathematical sum of the billable seconds of a list of worklog entries. -/
def totalBillable (results : List Worklog) : Int :=
  (results.map Worklog.BillableSeconds).sum

/-- The entry the time-log service holds for a submitted `NewWorklog`: the same ticket,
seconds, start, description and author. -/
def Worklog.ofNew (w : NewWorklog) : Worklog :=
  { IssueKey := w.IssueKey, TimeSpentSeconds := w.TimeSpentSeconds,
    BillableSeconds := w.BillableSeconds, StartDate := w.StartDate,
    StartTime := w.StartTime, Description := w.Description,
    AuthorAccountID := w.AuthorAccountID }

/-- An environment whose time-log service answers every request with status 200 and the
given entries, and whose issue tracker creates the ticket `TS-1` and finds the given
issues. -/
def serviceWith (results : List Worklog) (issues : List Issue) : Env :=
  { issueCreate := fun _ req => .ok { req with Key := "TS-1".toList, Fields := none },
    issueSearch := fun _ _ => .ok issues,
    newRequest := fun _ _ => none,
    newRequest_worklogs := rfl,
    http := fun _ _ => .ok { StatusCode := 200, Dump := [], Results := .ok results },
    timeString := fun t => t.Format tempoDateLayout }

/-- An environment whose issue tracker answers every request with an HTTP error status:
the library returns an error together with the response. -/
def trackerRefuses : Env :=
  { issueCreate := fun _ _ => .error "request failed".toList (some "HTTP/1.1 401".toList),
    issueSearch := fun _ _ => .error "request failed".toList (some "HTTP/1.1 401".toList),
    newRequest := fun _ _ => none,
    newRequest_worklogs := rfl,
    http := fun _ _ => .ok { StatusCode := 200, Dump := [], Results := .ok [] },
    timeString := fun t => t.Format tempoDateLayout }

/-- An environment whose issue tracker cannot be reached: the library returns an error
and a nil response. -/
def trackerUnreachable : Env :=
  { issueCreate := fun _ _ => .error "connection refused".toList none,
    issueSearch := fun _ _ => .error "connection refused".toList none,
    newRequest := fun _ _ => none,
    newRequest_worklogs := rfl,
    http := fun _ _ => .ok { StatusCode := 200, Dump := [], Results := .ok [] },
    timeString := fun t => t.Format tempoDateLayout }

/-! ## Lemmas -/

theorem Weekday_ofInt_eq_Monday (n : Int) : Weekday.ofInt n = .Monday ↔ n % 7 = 1 := by
  unfold Weekday.ofInt
  have h0 : 0 ≤ n % 7 := Int.emod_nonneg _ (by decide)
  have h7 : n % 7 < 7 := Int.emod_lt_of_pos _ (by decide)
  obtain ⟨k, hk⟩ := Int.eq_ofNat_of_zero_le h0
  rw [hk] at h7 ⊢
  have hk7 : k < 7 := by exact_mod_cast h7
  simp only [Int.toNat_ofNat]
  interval_cases k <;> simp

theorem wrapInt64_of_range (x : Int) (hlo : minInt64 ≤ x) (hhi : x ≤ maxInt64) :
    wrapInt64 x = x := by
  unfold minInt64 at hlo
  unfold maxInt64 at hhi
  unfold wrapInt64
  omega

theorem digitsFrom_ge (ds : List Char) (n : Nat) :
    n ≤ ds.foldl (fun n c => n * 10 + digitVal c) n := by
  induction ds generalizing n with
  | nil => simp
  | cons c cs ih =>
    simp only [List.foldl_cons]
    have := ih (n * 10 + digitVal c)
    omega

theorem parseUintLoop_nonNumeric (body : List Char) (n : Nat)
    (hrest : (body.dropWhile isDigit).isEmpty = false)
    (hmax : (body.takeWhile isDigit).foldl (fun n c => n * 10 + digitVal c) n ≤ maxUint64) :
    parseUintLoop body n = (0, some .ErrSyntax) := by
  induction body generalizing n with
  | nil => simp at hrest
  | cons c cs ih =>
    rw [parseUintLoop]
    by_cases hc : isDigit c = true
    · simp only [List.dropWhile_cons, hc, if_true] at hrest
      simp only [List.takeWhile_cons, hc, if_true, List.foldl_cons] at hmax
      have hge := digitsFrom_ge (cs.takeWhile isDigit) (n * 10 + digitVal c)
      have h1 : ¬ (1844674407370955162 ≤ n) := by unfold maxUint64 at hmax; omega
      have h2 : ¬ (maxUint64 < n * 10 + digitVal c) := by omega
      simp only [hc, Bool.not_true, Bool.false_eq_true, if_false, h1, h2]
      exact ih _ hrest hmax
    · simp [hc]

theorem ParseUint_nonNumeric (body : List Char)
    (h : (body.isEmpty ||
      (!(body.dropWhile isDigit).isEmpty &&
        decide (digitsValue (body.takeWhile isDigit) ≤ maxUint64))) = true) :
    ParseUint body = (0, some .ErrSyntax) := by
  unfold ParseUint
  by_cases he : body.isEmpty = true
  · simp [he]
  · simp only [he, Bool.false_or, Bool.and_eq_true, Bool.not_eq_true', decide_eq_true_eq] at h
    simp only [he, Bool.false_eq_true, if_false]
    exact parseUintLoop_nonNumeric body 0 h.1 h.2

theorem Atoi_of_nonNumeric (s : List Char) (h : NonNumeric s = true) :
    Atoi s = (0, false) := by
  unfold NonNumeric at h
  unfold Atoi ParseInt
  by_cases he : s.isEmpty = true
  · simp [he]
  · simp only [he, Bool.false_eq_true, if_false]
    split at h
    · rw [ParseUint_nonNumeric _ h]
      rfl
    · rw [ParseUint_nonNumeric _ h]
      rfl
    · have hu := ParseUint_nonNumeric s h
      simp only [hu]
      rfl

theorem Time_Add_Add (t : Time) (a b : Int) : (t.Add a).Add b = t.Add (a + b) := by
  simp only [Time.Add, add_assoc]

theorem Time_Add_zero (t : Time) : t.Add 0 = t := by
  simp [Time.Add]

theorem unixSec_Add_days (t : Time) (k : Int) :
    (t.Add (k * day)).unixSec = t.unixSec + k * 86400 := by
  simp only [Time.Add, Time.unixSec, day, Hour]
  omega

/-- Moving an instant by `k` times 24 hours moves its local date by `k` days when the
offset in force is the same at both instants. -/
theorem localDay_Add_days (t : Time) (k : Int)
    (h : t.loc.lookup (t.unixSec + k * 86400) = t.loc.lookup t.unixSec) :
    (t.Add (k * day)).localDay = t.localDay + k := by
  have hs := unixSec_Add_days t k
  have hl : (t.Add (k * day)).loc = t.loc := rfl
  simp only [Time.localDay, hs, hl, h]
  omega

theorem sinceMonday_le (t : Time) : (t.sinceMonday : Int) ≤ 6 ∧
    ((t.sinceMonday : Int) = (t.localDay + 3) % 7) := by
  simp only [Time.sinceMonday]
  omega

/-- With a steady offset over the last six days, the loop of `parseArgs` stops at the
Monday of the week of `now`. -/
theorem rewindToMonday_steady (now : Time)
    (h6 : ∀ s : Int, now.unixSec - 6 * 86400 ≤ s → s ≤ now.unixSec →
      now.loc.lookup s = now.loc.lookup now.unixSec) :
    rewindToMonday now = mondayOf now := by
  obtain ⟨hle, hsm⟩ := sinceMonday_le now
  have hday : ∀ j : Nat, (j : Int) ≤ now.sinceMonday →
      (now.Add (-(j : Int) * day)).localDay = now.localDay - j := by
    intro j hj
    have := localDay_Add_days now (-(j : Int)) (h6 _ (by omega) (by omega))
    rw [this]
    ring
  have key : ∀ m j : Nat, m + j = now.sinceMonday →
      rewindToMonday (now.Add (-(j : Int) * day)) = mondayOf now := by
    intro m
    induction m with
    | zero =>
      intro j hj
      have hj2 : (j : Int) = now.sinceMonday := by omega
      have hd := hday j (by omega)
      have hw : (now.Add (-(j : Int) * day)).Weekday = .Monday := by
        rw [Time.Weekday, Weekday_ofInt_eq_Monday, hd]
        omega
      rw [rewindToMonday, if_pos hw, mondayOf, hj2]
    | succ m ih =>
      intro j hj
      have hd := hday j (by omega)
      have hw : ¬ (now.Add (-(j : Int) * day)).Weekday = .Monday := by
        rw [Time.Weekday, Weekday_ofInt_eq_Monday, hd]
        omega
      rw [rewindToMonday, if_neg hw, Time_Add_Add]
      have hj1 : -(j : Int) * day + -1 * day = -((j + 1 : Nat) : Int) * day := by
        push_cast
        ring
      rw [hj1]
      exact ih (j + 1) (by omega)
  have h0 := key now.sinceMonday 0 (by omega)
  simpa [Time_Add_zero] using h0

theorem appendWeekdays_nil (date : Time) :
    appendWeekdays date [] =
      [date, date.Add day, date.Add (2 * day), date.Add (3 * day), date.Add (4 * day)] := by
  simp [appendWeekdays, List.range, List.range.loop, mulInt64, wrapInt64, day, Hour, Time.Add]

theorem HasPrefix_week_append (m : List Char) : HasPrefix (week ++ m) week = true := by
  simp [HasPrefix, week]

theorem TrimPrefix_week_append (m : List Char) : TrimPrefix (week ++ m) week = m := by
  simp [TrimPrefix, HasPrefix, week]

theorem HasPrefix_today_append_week (m : List Char) :
    HasPrefix (today ++ m) week = false := by
  simp [HasPrefix, week, today, List.isPrefixOf]

theorem HasPrefix_today_append (m : List Char) : HasPrefix (today ++ m) today = true := by
  simp [HasPrefix, today]

theorem TrimPrefix_today_append (m : List Char) : TrimPrefix (today ++ m) today = m := by
  simp [TrimPrefix, HasPrefix, today]

theorem Tail_singleton (a : List Char) : Tail [a] = [] := by
  simp [Tail]

/-- What `parseArgs` returns for a lone token `week<m>`, in terms of the value `Atoi`
gives for the modifier `m`. -/
theorem parseArgs_week_token (now : Time) (m : List Char) :
    parseArgs now [week ++ m] =
      .ok (appendWeekdays ((rewindToMonday now).Add (mulInt64 (mulInt64 (Atoi m).1 7) day)) [],
        defaultHours) := by
  simp [parseArgs, First, Tail_singleton, HasPrefix_week_append, TrimPrefix_week_append]

/-- What `parseArgs` returns for a lone token `today<m>`, in terms of the value `Atoi`
gives for the modifier `m`. -/
theorem parseArgs_today_token (now : Time) (m : List Char) :
    parseArgs now [today ++ m] =
      .ok ([now.Add (mulInt64 (Atoi m).1 day)], defaultHours) := by
  simp [parseArgs, First, Tail_singleton, HasPrefix_today_append_week, HasPrefix_today_append,
    TrimPrefix_today_append]

theorem dayShift_of_le (n : Int) (hlo : -106751 ≤ n) (hhi : n ≤ 106751) :
    mulInt64 n day = n * day := by
  unfold mulInt64
  apply wrapInt64_of_range
  · simp only [minInt64, day, Hour]; omega
  · simp only [maxInt64, day, Hour]; omega

theorem Atoi_nil : Atoi [] = (0, false) := by decide

theorem steady_six (now : Time) (d : Int) (hd : 6 ≤ d) (h : SteadyOffset now d) :
    ∀ s : Int, now.unixSec - 6 * 86400 ≤ s → s ≤ now.unixSec →
      now.loc.lookup s = now.loc.lookup now.unixSec := by
  intro s h1 h2
  exact h s (by omega) (by omega)

theorem UTC_steady (t : Int) (d : Int) : SteadyOffset ⟨t, UTC⟩ d := by
  intro s _ _
  simp [Location.lookup, UTC]

/-- C1 (the code at the failing input): for the argument list `week 6` the function
`parseArgs` returns the default 8 hours, not 6, in every location and at every instant:
the result is that of the bare `week`. The guard `len(tail) > 1` is false because `Tail`
already leaves out the date expression, so the hours token is never read unless a third
argument follows. -/
theorem parseArgs_week_6_hours (now : Time) :
    parseArgs now ["week".toList, "6".toList] =
      .ok ([rewindToMonday now, (rewindToMonday now).Add day,
        (rewindToMonday now).Add (2 * day), (rewindToMonday now).Add (3 * day),
        (rewindToMonday now).Add (4 * day)], 8) ∧
    parseArgs now ["week".toList, "6".toList] = parseArgs now ["week".toList] ∧
    parseArgs now ["week".toList, "6".toList, "x".toList] =
      .ok ([rewindToMonday now, (rewindToMonday now).Add day,
        (rewindToMonday now).Add (2 * day), (rewindToMonday now).Add (3 * day),
        (rewindToMonday now).Add (4 * day)], 6) ∧
    parseArgs ⟨0, UTC⟩ ["week".toList, "6".toList] = .ok (weekOf ⟨0, UTC⟩ 0, 8) := by
  have hw : "week".toList = week ++ [] := rfl
  have h6 : Atoi ['6'] = (6, true) := by decide
  have hz : mulInt64 (mulInt64 0 7) day = 0 := by decide
  have h1 : ∀ t : Time, parseArgs t ["week".toList, "6".toList] =
      .ok ([rewindToMonday t, (rewindToMonday t).Add day,
        (rewindToMonday t).Add (2 * day), (rewindToMonday t).Add (3 * day),
        (rewindToMonday t).Add (4 * day)], 8) := by
    intro t
    rw [hw]
    simp only [parseArgs, First, Tail, HasPrefix_week_append, TrimPrefix_week_append, Atoi_nil,
      hz, Time_Add_zero, appendWeekdays_nil]
    simp [defaultHours]
  refine ⟨h1 now, ?_, ?_, ?_⟩
  · rw [h1 now, hw, parseArgs_week_token, Atoi_nil, hz, Time_Add_zero, appendWeekdays_nil]
    rfl
  · rw [hw]
    simp only [parseArgs, First, Tail, HasPrefix_week_append, TrimPrefix_week_append, Atoi_nil,
      hz, Time_Add_zero, appendWeekdays_nil]
    simp [h6]
  · rw [h1, rewindToMonday_steady _ (steady_six _ 6 (by decide) (UTC_steady 0 6))]
    rfl

/-- C9 (amended): for every suffix that, after an optional sign, is empty or has a
character that is not a decimal digit, the digits in front of that character (if any)
having a value of at most 18446744073709551615, the tokens `week<suffix>` and
`today<suffix>` give the same result as the bare tokens `week` and `today` at the same
instant, whatever arguments follow, and given alone they do not fail. -/
theorem parseArgs_offset_not_integer (now : Time) (sfx : List Char)
    (h : NonNumeric sfx = true) :
    (∀ rest, parseArgs now ((week ++ sfx) :: rest) = parseArgs now (week :: rest)) ∧
    (∀ rest, parseArgs now ((today ++ sfx) :: rest) = parseArgs now (today :: rest)) ∧
    parseArgs now [week ++ sfx] =
      .ok ([rewindToMonday now, (rewindToMonday now).Add day,
        (rewindToMonday now).Add (2 * day), (rewindToMonday now).Add (3 * day),
        (rewindToMonday now).Add (4 * day)], defaultHours) ∧
    parseArgs now [today ++ sfx] = .ok ([now], defaultHours) := by
  have ha : Atoi sfx = (0, false) := Atoi_of_nonNumeric sfx h
  have hw : week = week ++ [] := by simp
  have ht : today = today ++ [] := by simp
  have hz : mulInt64 (mulInt64 0 7) day = 0 := by decide
  refine ⟨?_, ?_, ?_, ?_⟩
  · intro rest
    conv_rhs => rw [hw]
    simp only [parseArgs, First, Tail, HasPrefix_week_append, TrimPrefix_week_append, ha,
      Atoi_nil, List.length_cons, List.drop_succ_cons, List.drop_zero, if_true]
  · intro rest
    conv_rhs => rw [ht]
    simp only [parseArgs, First, Tail, HasPrefix_today_append_week, HasPrefix_today_append,
      TrimPrefix_today_append, ha, Atoi_nil, List.length_cons, List.drop_succ_cons,
      List.drop_zero, if_true, Bool.false_eq_true, if_false]
  · rw [parseArgs_week_token, ha, hz, Time_Add_zero, appendWeekdays_nil]
  · rw [parseArgs_today_token, ha, dayShift_of_le 0 (by decide) (by decide)]
    simp [Time.Add]

/-- C9 (witness): `weekfoo`, `today+x` and `week12abc` behave like `week` and `today`. -/
theorem parseArgs_offset_not_integer_witness :
    NonNumeric "foo".toList = true ∧
      parseArgs ⟨0, UTC⟩ ["weekfoo".toList] = parseArgs ⟨0, UTC⟩ ["week".toList] ∧
      NonNumeric "+x".toList = true ∧
      parseArgs ⟨0, UTC⟩ ["today+x".toList] = .ok ([⟨0, UTC⟩], 8) ∧
      NonNumeric "12abc".toList = true ∧
      parseArgs ⟨0, UTC⟩ ["week12abc".toList] = parseArgs ⟨0, UTC⟩ ["week".toList] ∧
      NonNumeric [] = true :=
  ⟨by decide, (parseArgs_offset_not_integer ⟨0, UTC⟩ "foo".toList (by decide)).1 [],
    by decide, (parseArgs_offset_not_integer ⟨0, UTC⟩ "+x".toList (by decide)).2.2.2,
    by decide, (parseArgs_offset_not_integer ⟨0, UTC⟩ "12abc".toList (by decide)).1 [],
    by decide⟩

/-- C9 (counterexample): the suffix `99999999999999999999x` is not an integer and `Atoi`
fails on it, but with a range error reported at the twentieth digit, before the `x` is
read, and with the largest `int` as value, not 0. The program ignores the error and uses
the value: at the Unix epoch `parseArgs` returns for `week99999999999999999999x` the week
before the current one (the product with `7 * day` wraps to minus one week), not the
dates of the bare token `week`. -/
theorem parseArgs_offset_range_counterexample :
    Atoi "99999999999999999999x".toList = (9223372036854775807, false) ∧
    parseArgs ⟨0, UTC⟩ ["week99999999999999999999x".toList] =
      .ok ([⟨-864000000000000, UTC⟩, ⟨-777600000000000, UTC⟩, ⟨-691200000000000, UTC⟩,
        ⟨-604800000000000, UTC⟩, ⟨-518400000000000, UTC⟩], 8) ∧
    parseArgs ⟨0, UTC⟩ ["week".toList] =
      .ok ([⟨-259200000000000, UTC⟩, ⟨-172800000000000, UTC⟩, ⟨-86400000000000, UTC⟩,
        ⟨0, UTC⟩, ⟨86400000000000, UTC⟩], 8) ∧
    parseArgs ⟨0, UTC⟩ ["week99999999999999999999x".toList] ≠
      parseArgs ⟨0, UTC⟩ ["week".toList] := by
  have hw : "week99999999999999999999x".toList = week ++ "99999999999999999999x".toList := rfl
  have hw0 : "week".toList = week ++ [] := rfl
  have ha : Atoi "99999999999999999999x".toList = (9223372036854775807, false) := by decide
  have hm : mulInt64 (mulInt64 9223372036854775807 7) day = -604800000000000 := by decide
  have hz : mulInt64 (mulInt64 0 7) day = 0 := by decide
  have hr := rewindToMonday_steady _ (steady_six _ 6 (by decide) (UTC_steady 0 6))
  have h1 : parseArgs ⟨0, UTC⟩ ["week99999999999999999999x".toList] =
      .ok ([⟨-864000000000000, UTC⟩, ⟨-777600000000000, UTC⟩, ⟨-691200000000000, UTC⟩,
        ⟨-604800000000000, UTC⟩, ⟨-518400000000000, UTC⟩], 8) := by
    rw [hw, parseArgs_week_token, ha, hm, appendWeekdays_nil, hr]
    rfl
  have h2 : parseArgs ⟨0, UTC⟩ ["week".toList] =
      .ok ([⟨-259200000000000, UTC⟩, ⟨-172800000000000, UTC⟩, ⟨-86400000000000, UTC⟩,
        ⟨0, UTC⟩, ⟨86400000000000, UTC⟩], 8) := by
    rw [hw0, parseArgs_week_token, Atoi_nil, hz, appendWeekdays_nil, hr]
    rfl
  refine ⟨ha, h1, h2, ?_⟩
  rw [h1, h2]
  intro h
  injection h with h
  injection h with h _
  injection h with h _
  injection h with h _
  exact absurd h (by decide)

theorem utod_digit (k : Nat) (hk : k < 10) :
    isDigit (utod k) = true ∧ digitVal (utod k) = k ∧ utod k ≠ '/' ∧ utod k ≠ 'w' ∧
      utod k ≠ 't' := by
  interval_cases k <;> exact ⟨by decide, by decide, by decide, by decide, by decide⟩

theorem HasPrefix_cons_ne (c : Char) (rest : List Char) (hw : c ≠ 'w') (ht : c ≠ 't') :
    HasPrefix (c :: rest) week = false ∧ HasPrefix (c :: rest) today = false := by
  constructor
  · simp only [HasPrefix, week]
    have : ('w' == c) = false := by simpa using fun h => hw h.symm
    show List.isPrefixOf ('w' :: _) (c :: rest) = false
    simp [List.isPrefixOf, this]
  · simp only [HasPrefix, today]
    have : ('t' == c) = false := by simpa using fun h => ht h.symm
    show List.isPrefixOf ('t' :: _) (c :: rest) = false
    simp [List.isPrefixOf, this]

theorem Parse_dateToken (sep : Char) (y m d : Nat) (hy : y ≤ 9999) (hm1 : 1 ≤ m)
    (hm2 : m ≤ 12) (hd1 : 1 ≤ d) (hd2 : d ≤ daysIn m y) :
    Parse ⟨sep⟩ (dateToken sep y m d) = some (Date y m d) := by
  have hd31 : d ≤ 31 := by
    unfold daysIn at hd2
    split_ifs at hd2 <;> omega
  obtain ⟨a1, a2, -, -, -⟩ := utod_digit (y / 1000) (by omega)
  obtain ⟨b1, b2, -, -, -⟩ := utod_digit (y / 100 % 10) (by omega)
  obtain ⟨c1, c2, -, -, -⟩ := utod_digit (y / 10 % 10) (by omega)
  obtain ⟨e1, e2, -, -, -⟩ := utod_digit (y % 10) (by omega)
  obtain ⟨f1, f2, -, -, -⟩ := utod_digit (m / 10) (by omega)
  obtain ⟨g1, g2, -, -, -⟩ := utod_digit (m % 10) (by omega)
  obtain ⟨i1, i2, -, -, -⟩ := utod_digit (d / 10) (by omega)
  obtain ⟨j1, j2, -, -, -⟩ := utod_digit (d % 10) (by omega)
  have hyear : y / 1000 * 10 * 10 * 10 + y / 100 % 10 * 10 * 10 + y / 10 % 10 * 10 + y % 10 = y := by
    omega
  have hyv : digitsValue [utod (y / 1000), utod (y / 100 % 10), utod (y / 10 % 10),
      utod (y % 10)] = y := by
    simp only [digitsValue, List.foldl_cons, List.foldl_nil, a2, b2, c2, e2]
    omega
  have hmv : m / 10 * 10 + m % 10 = m := by omega
  have hdv : d / 10 * 10 + d % 10 = d := by omega
  have hm0 : ¬ (m = 0 ∨ 12 < m) := by omega
  have hdd : ¬ (d < 1 ∨ daysIn m (y : Int) < d) := by omega
  simp only [Parse, dateToken, a1, b1, c1, e1, f1, g1, i1, j1, hyv, skip, getnum, f2, g2, i2,
    j2, hmv, hdv, Bool.and_self, if_true, hm0, hdd, if_false, ne_eq, not_true_eq_false]

/-! ## Claim about explicit dates -/

/-- C7: for every calendar date (year 0 to 9999), parsing its slash form `YYYY/MM/DD` and
its hyphen form `YYYY-MM-DD` yields the same single date, midnight UTC of that day, with
the default hours; a token that starts with neither `week` nor `today` and matches neither
layout (`banana` for one) makes `parseArgs` end in the fatal invalid-date error, whatever
arguments follow. -/
theorem parseArgs_explicit_date (now : Time) (y m d : Nat) (hy : y ≤ 9999) (hm1 : 1 ≤ m)
    (hm2 : m ≤ 12) (hd1 : 1 ≤ d) (hd2 : d ≤ daysIn m y) :
    parseArgs now [dateToken '/' y m d] = .ok ([Date y m d], defaultHours) ∧
    parseArgs now [dateToken '-' y m d] = .ok ([Date y m d], defaultHours) ∧
    parseArgs now ["banana".toList] = .error (.unrecognizedDate "banana".toList) ∧
    (∀ (tok : List Char) (rest : List (List Char)),
      HasPrefix tok week = false → HasPrefix tok today = false →
      Parse jiraDateLayout tok = none → Parse tempoDateLayout tok = none →
      parseArgs now (tok :: rest) = .error (.unrecognizedDate tok)) := by
  obtain ⟨-, -, -, hw, ht⟩ := utod_digit (y / 1000) (by omega)
  have hs := Parse_dateToken '/' y m d hy hm1 hm2 hd1 hd2
  have hh := Parse_dateToken '-' y m d hy hm1 hm2 hd1 hd2
  have hne : ∀ sep, Parse jiraDateLayout (dateToken sep y m d) = none ∨
      Parse jiraDateLayout (dateToken sep y m d) = some (Date y m d) := by
    intro sep
    by_cases hsep : sep = '/'
    · right; rw [hsep]; exact hs
    · left
      have a := utod_digit (y / 1000) (by omega)
      have b := utod_digit (y / 100 % 10) (by omega)
      have c := utod_digit (y / 10 % 10) (by omega)
      have e := utod_digit (y % 10) (by omega)
      simp [Parse, dateToken, jiraDateLayout, skip, a.1, b.1, c.1, e.1, hsep]
  refine ⟨?_, ?_, ?_, ?_⟩
  · have hp := HasPrefix_cons_ne (utod (y / 1000)) (dateToken '/' y m d).tail hw ht
    have htok : utod (y / 1000) :: (dateToken '/' y m d).tail = dateToken '/' y m d := rfl
    rw [htok] at hp
    simp only [parseArgs, First, hp.1, hp.2, jiraDateLayout, hs, Tail_singleton]
    simp
  · have hp := HasPrefix_cons_ne (utod (y / 1000)) (dateToken '-' y m d).tail hw ht
    have htok : utod (y / 1000) :: (dateToken '-' y m d).tail = dateToken '-' y m d := rfl
    rw [htok] at hp
    rcases hne '-' with h0 | h0
    · simp only [parseArgs, First, hp.1, hp.2, h0, tempoDateLayout, hh, Tail_singleton]
      simp
    · simp only [parseArgs, First, hp.1, hp.2, h0, Tail_singleton]
      simp
  · have h1 : HasPrefix "banana".toList week = false := by decide
    have h2 : HasPrefix "banana".toList today = false := by decide
    have h3 : Parse jiraDateLayout "banana".toList = none := rfl
    have h4 : Parse tempoDateLayout "banana".toList = none := rfl
    simp only [parseArgs, First, h1, h2, h3, h4]
    simp
  · intro tok rest h1 h2 h3 h4
    simp only [parseArgs, First, h1, h2, h3, h4]
    simp

/-- C7 (witness): `2024/03/05` and `2024-03-05` both parse to midnight UTC of 5 March 2024,
a Tuesday, whose slash form is `2024/03/05` again. -/
theorem parseArgs_explicit_date_witness :
    (2024 ≤ 9999 ∧ 1 ≤ 3 ∧ 3 ≤ 12 ∧ 1 ≤ 5 ∧ 5 ≤ daysIn 3 2024) ∧
      parseArgs ⟨0, UTC⟩ ["2024/03/05".toList] = .ok ([⟨1709596800000000000, UTC⟩], 8) ∧
      parseArgs ⟨0, UTC⟩ ["2024-03-05".toList] = .ok ([⟨1709596800000000000, UTC⟩], 8) ∧
      (⟨1709596800000000000, UTC⟩ : Time).Format jiraDateLayout = "2024/03/05".toList ∧
      (⟨1709596800000000000, UTC⟩ : Time).Weekday = .Tuesday :=
  ⟨by decide,
    (parseArgs_explicit_date ⟨0, UTC⟩ 2024 3 5 (by decide) (by decide) (by decide) (by decide)
      (by decide)).1,
    (parseArgs_explicit_date ⟨0, UTC⟩ 2024 3 5 (by decide) (by decide) (by decide) (by decide)
      (by decide)).2.1,
    by decide, by decide⟩

/-! ## Claims about the time-log client -/

theorem wrapInt64_add_wrap (a b : Int) : wrapInt64 (wrapInt64 a + b) = wrapInt64 (a + b) := by
  unfold wrapInt64
  omega

theorem foldl_addInt64 (results : List Worklog) (acc : Int) :
    wrapInt64 (results.foldl
        (fun loggedSeconds worklog => addInt64 loggedSeconds worklog.BillableSeconds) acc) =
      wrapInt64 (acc + totalBillable results) := by
  induction results generalizing acc with
  | nil => simp [totalBillable]
  | cons w rest ih =>
    rw [List.foldl_cons, ih, addInt64, wrapInt64_add_wrap]
    simp only [totalBillable, List.map_cons, List.sum_cons]
    rw [add_assoc]

theorem foldl_addInt64_wrapped (results : List Worklog) (acc : Int)
    (hacc : wrapInt64 acc = acc) :
    wrapInt64 (results.foldl
        (fun loggedSeconds worklog => addInt64 loggedSeconds worklog.BillableSeconds) acc) =
      results.foldl
        (fun loggedSeconds worklog => addInt64 loggedSeconds worklog.BillableSeconds) acc := by
  induction results generalizing acc with
  | nil => simpa using hacc
  | cons w rest ih =>
    simp only [List.foldl_cons]
    apply ih
    unfold addInt64 wrapInt64
    omega

theorem sumBillableSeconds_eq (results : List Worklog) :
    sumBillableSeconds results = wrapInt64 (totalBillable results) := by
  unfold sumBillableSeconds
  rw [← foldl_addInt64_wrapped results 0 (by decide), foldl_addInt64]
  simp

theorem tdiv_nonneg_eq (a : Int) (ha : 0 ≤ a) :
    (a.tdiv 60).tdiv 60 = a / 3600 ∧ a.tdiv 60 = a / 60 ∧ a.tdiv 3600 = a / 3600 := by
  have h1 : a.tdiv 60 = a / 60 := Int.tdiv_eq_ediv ha (by decide)
  have h2 : (a / 60).tdiv 60 = a / 60 / 60 := Int.tdiv_eq_ediv (by omega) (by decide)
  have h3 : a.tdiv 3600 = a / 3600 := Int.tdiv_eq_ediv ha (by decide)
  refine ⟨?_, h1, h3⟩
  rw [h1, h2]
  omega

theorem tdiv_neg_eq (a : Int) (ha : a < 0) :
    (a.tdiv 60).tdiv 60 = -((-a) / 3600) ∧ a.tdiv 60 = -((-a) / 60) ∧
      a.tdiv 3600 = -((-a) / 3600) := by
  have h := tdiv_nonneg_eq (-a) (by omega)
  have e : a = - -a := by simp
  refine ⟨?_, ?_, ?_⟩
  · rw [e, Int.neg_tdiv, Int.neg_tdiv, h.1]; simp
  · rw [e, Int.neg_tdiv, h.2.1]; simp
  · rw [e, Int.neg_tdiv, h.2.2]; simp

theorem quoInt64_hours (s : Int) (hlo : minInt64 ≤ s) (hhi : s ≤ maxInt64) :
    quoInt64 (quoInt64 s 60) 60 = s.tdiv 3600 := by
  unfold minInt64 at hlo
  unfold maxInt64 at hhi
  unfold quoInt64
  rcases le_or_lt 0 s with hs | hs
  · obtain ⟨h1, h2, h3⟩ := tdiv_nonneg_eq s hs
    have w2 : wrapInt64 (s.tdiv 60) = s.tdiv 60 := by
      rw [h2]; unfold wrapInt64; omega
    rw [w2, h1, h3]
    unfold wrapInt64; omega
  · obtain ⟨h1, h2, h3⟩ := tdiv_neg_eq s hs
    have w2 : wrapInt64 (s.tdiv 60) = s.tdiv 60 := by
      rw [h2]; unfold wrapInt64; omega
    rw [w2, h1, h3]
    unfold wrapInt64; omega

theorem GetLoggedHours_of_results (env : Env) (c : TempoClient) (jiraIssueKey : List Char)
    (tr tr1 : List Call) (res : Response) (results : List Worklog)
    (hdo : c.Do env "GET".toList ("/worklogs?issue=".toList ++ jiraIssueKey) none tr
      = (.ok res, tr1))
    (hdec : res.Results = .ok results)
    (hlo : minInt64 ≤ totalBillable results) (hhi : totalBillable results ≤ maxInt64) :
    c.GetLoggedHours env jiraIssueKey tr
      = (((totalBillable results).tdiv 3600, none), tr1) := by
  have hsum : sumBillableSeconds results = totalBillable results := by
    rw [sumBillableSeconds_eq, wrapInt64_of_range _ hlo hhi]
  simp only [TempoClient.GetLoggedHours, hdo, hdec, hsum, quoInt64_hours _ hlo hhi]

/-- C3 (amended): when the request succeeds and the body decodes to a list of entries
whose billable seconds sum to a total within the 64-bit range of Go's `int`,
`GetLoggedHours` returns, with a nil error, that total divided by 3600 and truncated
toward zero; for a non-negative total the result `h` satisfies
`h * 3600 ≤ total < (h + 1) * 3600`, and an empty list reports 0. -/
theorem GetLoggedHours_truncates (env : Env) (c : TempoClient) (jiraIssueKey : List Char)
    (tr tr1 : List Call) (res : Response) (results : List Worklog)
    (hdo : c.Do env "GET".toList ("/worklogs?issue=".toList ++ jiraIssueKey) none tr
      = (.ok res, tr1))
    (hdec : res.Results = .ok results)
    (hlo : minInt64 ≤ totalBillable results) (hhi : totalBillable results ≤ maxInt64) :
    c.GetLoggedHours env jiraIssueKey tr = (((totalBillable results).tdiv 3600, none), tr1) ∧
    (0 ≤ totalBillable results →
      (totalBillable results).tdiv 3600 * 3600 ≤ totalBillable results ∧
      totalBillable results < ((totalBillable results).tdiv 3600 + 1) * 3600) ∧
    (results = [] → c.GetLoggedHours env jiraIssueKey tr = ((0, none), tr1)) := by
  have hmain := GetLoggedHours_of_results env c jiraIssueKey tr tr1 res results hdo hdec hlo hhi
  refine ⟨hmain, ?_, ?_⟩
  · intro h0
    rw [(tdiv_nonneg_eq _ h0).2.2]
    omega
  · intro hnil
    rw [hmain, hnil]
    rfl

/-- C3 (witness): entries of 3600 and 1800 billable seconds (5400 in total) report 1 hour,
not 2. -/
theorem GetLoggedHours_truncates_witness :
    (⟨[], []⟩ : TempoClient).GetLoggedHours
        (serviceWith [⟨[], 3600, 3600, [], [], [], []⟩, ⟨[], 1800, 1800, [], [], [], []⟩] [])
        "TS-1".toList []
      = ((1, none),
          [.tempo ⟨"GET".toList, "https://api.tempo.io/core/3/worklogs?issue=TS-1".toList,
            "application/json".toList, "Bearer ".toList, none⟩]) :=
  (GetLoggedHours_truncates
    (serviceWith [⟨[], 3600, 3600, [], [], [], []⟩, ⟨[], 1800, 1800, [], [], [], []⟩] [])
    ⟨[], []⟩ "TS-1".toList [] _ _ _ rfl rfl (by decide) (by decide)).1

/-- C3 (counterexample): two entries of 4611686018427387904 billable seconds each have
the non-negative total 9223372036854775808, but the running sum wraps around and
`GetLoggedHours` reports -2562047788015215 hours, which is not the total divided by 3600:
`h * 3600 ≤ total < (h + 1) * 3600` fails at `h + 1 = -2562047788015214`. -/
theorem GetLoggedHours_overflow_counterexample :
    totalBillable [⟨[], 0, 4611686018427387904, [], [], [], []⟩,
        ⟨[], 0, 4611686018427387904, [], [], [], []⟩] = 9223372036854775808 ∧
    ((⟨[], []⟩ : TempoClient).GetLoggedHours
        (serviceWith [⟨[], 0, 4611686018427387904, [], [], [], []⟩,
          ⟨[], 0, 4611686018427387904, [], [], [], []⟩] [])
        "TS-1".toList []).1 = (-2562047788015215, none) ∧
    (-2562047788015215 + 1) * 3600 < (9223372036854775808 : Int) := by
  refine ⟨by decide, ?_, by decide⟩
  rfl

theorem Do_trace (env : Env) (c : TempoClient) (method resource : List Char)
    (body : Option NewWorklog) (tr : List Call)
    (hreq : env.newRequest method (tempoAPI ++
      (if HasPrefix resource "/".toList then resource else "/".toList ++ resource)) = none) :
    (c.Do env method resource body tr).2 =
      tr ++ [.tempo ⟨method,
        tempoAPI ++ (if HasPrefix resource "/".toList then resource else "/".toList ++ resource),
        "application/json".toList, "Bearer ".toList ++ c.token, body⟩] := by
  simp only [TempoClient.Do, hreq]
  split
  · rfl
  · split <;> rfl

theorem LogDay_trace (env : Env) (c : TempoClient) (date : Time) (hours : Int)
    (jiraIssueKey : List Char) (tr : List Call) :
    (c.LogDay env date hours jiraIssueKey tr).2 =
      tr ++ [.tempo ⟨"POST".toList, "https://api.tempo.io/core/3/worklogs".toList,
        "application/json".toList, "Bearer ".toList ++ c.token,
        some (c.newWorklog date hours jiraIssueKey)⟩] := by
  have hurl : tempoAPI ++ (if HasPrefix "/worklogs".toList "/".toList then "/worklogs".toList
      else "/".toList ++ "/worklogs".toList) = "https://api.tempo.io/core/3/worklogs".toList := by
    decide
  have hd := Do_trace env c "POST".toList "/worklogs".toList
    (some (c.newWorklog date hours jiraIssueKey)) tr
    (by rw [hurl]; exact env.newRequest_worklogs)
  rw [hurl] at hd
  rcases hdo : c.Do env "POST".toList "/worklogs".toList
    (some (c.newWorklog date hours jiraIssueKey)) tr with ⟨r, tr1⟩
  rw [hdo] at hd
  cases r <;> simp only [TempoClient.LogDay, hdo] <;> exact hd

theorem loggedSeconds_of_range (hours : Int) (hlo : minInt64 ≤ hours * 3600)
    (hhi : hours * 3600 ≤ maxInt64) : mulInt64 (mulInt64 hours 60) 60 = hours * 3600 := by
  unfold minInt64 at hlo
  unfold maxInt64 at hhi
  unfold mulInt64 wrapInt64
  omega

/-- C10 (amended): `LogDay(date, hours, ticketKey)` makes exactly one request, a POST to
`/worklogs` of the time-log API, whatever the service answers. When `hours * 3600` lies in
the 64-bit range of Go's `int`, the submitted entry has `timeSpentSeconds = hours * 3600`,
`billableSeconds` equal to it, `startDate` the date as `YYYY-MM-DD`, `startTime`
`00:00:00`, `issueKey` the ticket key, `description` `Working on issue <ticketKey>.` and
author the account of the client; and a ticket holding only that entry is reported by
`GetLoggedHours` as exactly `hours`. -/
theorem LogDay_submits (env : Env) (c : TempoClient) (date : Time) (hours : Int)
    (ticketKey : List Char) (tr : List Call)
    (hlo : minInt64 ≤ hours * 3600) (hhi : hours * 3600 ≤ maxInt64) :
    (c.LogDay env date hours ticketKey tr).2 =
      tr ++ [.tempo ⟨"POST".toList, "https://api.tempo.io/core/3/worklogs".toList,
        "application/json".toList, "Bearer ".toList ++ c.token,
        some (c.newWorklog date hours ticketKey)⟩] ∧
    (c.newWorklog date hours ticketKey).TimeSpentSeconds = hours * 3600 ∧
    (c.newWorklog date hours ticketKey).BillableSeconds =
      (c.newWorklog date hours ticketKey).TimeSpentSeconds ∧
    (c.newWorklog date hours ticketKey).StartDate = date.Format tempoDateLayout ∧
    (c.newWorklog date hours ticketKey).StartTime = "00:00:00".toList ∧
    (c.newWorklog date hours ticketKey).IssueKey = ticketKey ∧
    (c.newWorklog date hours ticketKey).Description =
      "Working on issue ".toList ++ ticketKey ++ ".".toList ∧
    (c.newWorklog date hours ticketKey).AuthorAccountID = c.jiraAccountID ∧
    (∀ (env2 : Env) (c2 : TempoClient) (tr2 tr3 : List Call) (res : Response),
      c2.Do env2 "GET".toList ("/worklogs?issue=".toList ++ ticketKey) none tr2
        = (.ok res, tr3) →
      res.Results = .ok [Worklog.ofNew (c.newWorklog date hours ticketKey)] →
      c2.GetLoggedHours env2 ticketKey tr2 = ((hours, none), tr3)) := by
  have hsec := loggedSeconds_of_range hours hlo hhi
  refine ⟨LogDay_trace env c date hours ticketKey tr, ?_, rfl, rfl, rfl, rfl, rfl, rfl, ?_⟩
  · simp only [TempoClient.newWorklog, hsec]
  · intro env2 c2 tr2 tr3 res hdo hdec
    have htot : totalBillable [Worklog.ofNew (c.newWorklog date hours ticketKey)]
        = hours * 3600 := by
      simp [totalBillable, Worklog.ofNew, TempoClient.newWorklog, hsec]
    have h := GetLoggedHours_of_results env2 c2 ticketKey tr2 tr3 res _ hdo hdec
      (by rw [htot]; exact hlo) (by rw [htot]; exact hhi)
    rw [h, htot, Int.mul_tdiv_cancel _ (by decide)]

/-- C10 (witness): logging 6 hours on 5 March 2024 for ticket `TS-1` submits 21600 seconds
with start date `2024-03-05`. -/
theorem LogDay_submits_witness :
    ((⟨"tok".toList, "me".toList⟩ : TempoClient).LogDay (serviceWith [] [])
        ⟨1709596800000000000, UTC⟩ 6 "TS-1".toList []).2 =
      [.tempo ⟨"POST".toList, "https://api.tempo.io/core/3/worklogs".toList,
        "application/json".toList, "Bearer tok".toList,
        some ⟨"TS-1".toList, 21600, 21600, "2024-03-05".toList, "00:00:00".toList,
          "Working on issue TS-1.".toList, "me".toList, 0, []⟩⟩] :=
  (LogDay_submits (serviceWith [] []) ⟨"tok".toList, "me".toList⟩ ⟨1709596800000000000, UTC⟩ 6
    "TS-1".toList [] (by decide) (by decide)).1

/-- C10 (counterexample): for `hours = 2562047788015216` the product `hours * 60 * 60`
leaves the 64-bit range: the submitted `timeSpentSeconds` is -9223372036854774016, not
`hours * 3600 = 9223372036854777600`. -/
theorem LogDay_overflow_counterexample :
    ((⟨"tok".toList, "me".toList⟩ : TempoClient).LogDay (serviceWith [] [])
        ⟨1709596800000000000, UTC⟩ 2562047788015216 "TS-1".toList []).2 =
      [.tempo ⟨"POST".toList, "https://api.tempo.io/core/3/worklogs".toList,
        "application/json".toList, "Bearer tok".toList,
        some ⟨"TS-1".toList, -9223372036854774016, -9223372036854774016,
          "2024-03-05".toList, "00:00:00".toList, "Working on issue TS-1.".toList,
          "me".toList, 0, []⟩⟩] ∧
    (2562047788015216 : Int) * 3600 = 9223372036854777600 ∧
    ((⟨"tok".toList, "me".toList⟩ : TempoClient).newWorklog ⟨1709596800000000000, UTC⟩
        2562047788015216 "TS-1".toList).TimeSpentSeconds ≠ 2562047788015216 * 3600 := by
  refine ⟨?_, by decide, by decide⟩
  rw [LogDay_trace]
  rfl

/-! ## Claims about the issue-tracker client -/

theorem collectKeys_foldl (issues : List Issue) (acc : List (List Char)) :
    issues.foldl (fun keys iss => keys ++ [iss.Key]) acc = acc ++ issues.map Issue.Key := by
  induction issues generalizing acc with
  | nil => simp
  | cons i rest ih => simp [ih]

theorem collectKeys_eq_map (issues : List Issue) :
    collectKeys issues = issues.map Issue.Key := by
  simp [collectKeys, collectKeys_foldl]

theorem isInfix_Join (keys : List (List Char)) (sep k : List Char) (hk : k ∈ keys) :
    List.IsInfix k (Join keys sep) := by
  induction keys with
  | nil => simp at hk
  | cons a rest ih =>
    cases rest with
    | nil =>
      simp only [List.mem_singleton] at hk
      subst hk
      exact List.infix_refl _
    | cons b rest2 =>
      simp only [Join]
      rcases List.mem_cons.1 hk with h | h
      · subst h
        exact ⟨[], sep ++ Join (b :: rest2) sep, by simp⟩
      · obtain ⟨p, q, hpq⟩ := ih h
        exact ⟨a ++ sep ++ p, q, by simp [← hpq]⟩

/-- C4: when the search succeeds, `FindIssue` decides by the number of matching issues.
No match: a not-found error and no issue. Exactly one match: that issue and no error.
Two or more matches: an error and no issue, whose message ends with the keys of all the
matching issues, in order, joined by commas (so every key occurs in it). An issue is
returned only when it is the single match. -/
theorem FindIssue_cardinality (env : Env) (c : JiraClient) (email : List Char) (date : Time)
    (tr : List Call) (issues : List Issue)
    (hsearch : env.issueSearch tr (findIssueJQL email (c.issueName date)
      (ReplaceAll (c.issueName date) '/' '-') c.ProjectKey) = .ok issues) :
    (issues = [] → (c.FindIssue env email date tr).1 =
      .error ("found no issue matching asignee=\x27".toList ++ email
        ++ "\x27 and summary=\x27".toList ++ c.issueName date
        ++ "\x27 and project=\x27".toList ++ c.ProjectKey ++ "\x27".toList)) ∧
    (∀ i, issues = [i] → (c.FindIssue env email date tr).1 = .ok i) ∧
    (2 ≤ issues.length → (c.FindIssue env email date tr).1 =
      .error ("found more than one issue (expected 1) matching email=\x27".toList ++ email
        ++ "\x27 and date=\x27".toList ++ env.timeString date ++ "\x27: ".toList
        ++ Join (issues.map Issue.Key) ",".toList)) ∧
    (∀ i ∈ issues, List.IsInfix i.Key (Join (issues.map Issue.Key) ",".toList)) ∧
    (∀ i, (c.FindIssue env email date tr).1 = .ok i → issues = [i]) := by
  refine ⟨?_, ?_, ?_, ?_, ?_⟩
  · intro h
    subst h
    simp only [JiraClient.FindIssue, hsearch]
  · intro i h
    subst h
    simp only [JiraClient.FindIssue, hsearch]
  · intro h
    match issues, h, hsearch with
    | a :: b :: rest, _, hsearch =>
      simp only [JiraClient.FindIssue, hsearch, collectKeys_eq_map]
  · intro i hi
    exact isInfix_Join _ _ _ (List.mem_map_of_mem _ hi)
  · intro i h
    match issues, hsearch with
    | [], hsearch =>
      simp only [JiraClient.FindIssue, hsearch] at h
      cases h
    | [j], hsearch =>
      simp only [JiraClient.FindIssue, hsearch] at h
      cases h
      rfl
    | a :: b :: rest, hsearch =>
      simp only [JiraClient.FindIssue, hsearch] at h
      cases h

/-- C4 (witness): a search that returns the two issues `TS-1` and `TS-2` yields an error
whose message ends in `TS-1,TS-2`. -/
theorem FindIssue_cardinality_witness :
    ((⟨⟨"me".toList, "me@x.org".toList⟩, "TS".toList⟩ : JiraClient).FindIssue
        (serviceWith [] [⟨"TS-1".toList, [], none⟩, ⟨"TS-2".toList, [], none⟩])
        "me@x.org".toList ⟨1709596800000000000, UTC⟩ []).1 =
      .error ("found more than one issue (expected 1) matching email=\x27me@x.org\x27".toList
        ++ " and date=\x272024-03-05\x27: TS-1,TS-2".toList) :=
  (FindIssue_cardinality
    (serviceWith [] [⟨"TS-1".toList, [], none⟩, ⟨"TS-2".toList, [], none⟩])
    ⟨⟨"me".toList, "me@x.org".toList⟩, "TS".toList⟩ "me@x.org".toList
    ⟨1709596800000000000, UTC⟩ [] _ rfl).2.2.1 (by decide)

theorem utod_no_slash (k : Nat) (hk : k < 10) : utod k ≠ '/' := (utod_digit k hk).2.2.1

theorem decimalDigits_no_slash (fuel : Nat) (u : Nat) (acc : List Char)
    (hacc : ∀ c ∈ acc, c ≠ '/') : ∀ c ∈ decimalDigits fuel u acc, c ≠ '/' := by
  induction fuel generalizing u acc with
  | zero => simpa [decimalDigits] using hacc
  | succ fuel ih =>
    unfold decimalDigits
    split
    · rename_i hu
      intro c hc
      rcases List.mem_cons.1 hc with h | h
      · rw [h]; exact utod_no_slash u hu
      · exact hacc c h
    · apply ih
      intro c hc
      rcases List.mem_cons.1 hc with h | h
      · rw [h]; exact utod_no_slash _ (Nat.mod_lt _ (by decide))
      · exact hacc c h

theorem appendInt_no_slash (x : Int) (width : Nat) : ∀ c ∈ appendInt x width, c ≠ '/' := by
  have hsign : ∀ c ∈ (if x < 0 then ['-'] else []), c ≠ '/' := by
    intro c hc
    split at hc
    · simp only [List.mem_singleton] at hc
      rw [hc]; decide
    · simp at hc
  intro c hc
  unfold appendInt at hc
  simp only at hc
  split at hc
  · rename_i h
    rcases List.mem_append.1 hc with h1 | h1
    · exact hsign c h1
    · simp only [List.mem_cons, List.mem_singleton, List.not_mem_nil, or_false] at h1
      rcases h1 with h1 | h1 <;> rw [h1] <;> apply utod_no_slash <;> omega
  · split at hc
    · rename_i h
      rcases List.mem_append.1 hc with h1 | h1
      · exact hsign c h1
      · simp only [List.mem_cons, List.mem_singleton, List.not_mem_nil, or_false] at h1
        rcases h1 with h1 | h1 | h1 | h1 <;> rw [h1] <;> apply utod_no_slash <;> omega
    · rcases List.mem_append.1 hc with h1 | h1
      · rcases List.mem_append.1 h1 with h2 | h2
        · exact hsign c h2
        · rw [List.eq_of_mem_replicate h2]; decide
      · exact decimalDigits_no_slash _ _ [] (by simp) c h1

theorem ReplaceAll_of_no_slash (s : List Char) (h : ∀ c ∈ s, c ≠ '/') :
    ReplaceAll s '/' '-' = s := by
  induction s with
  | nil => rfl
  | cons a rest ih =>
    have ha : a ≠ '/' := h a (by simp)
    have hr := ih (fun c hc => h c (by simp [hc]))
    unfold ReplaceAll at hr ⊢
    simp [ha, hr]

theorem ReplaceAll_append (s t : List Char) :
    ReplaceAll (s ++ t) '/' '-' = ReplaceAll s '/' '-' ++ ReplaceAll t '/' '-' := by
  simp [ReplaceAll]

theorem Weekday_String_no_slash (w : Weekday) : ∀ c ∈ w.String, c ≠ '/' := by
  cases w <;> decide

theorem ReplaceAll_issueName (c : JiraClient) (date : Time) :
    ReplaceAll (c.issueName date) '/' '-' =
      date.Format tempoDateLayout ++ " ".toList ++ date.Weekday.String := by
  have hsep : ReplaceAll ['/'] '/' '-' = ['-'] := by decide
  have hsp : ReplaceAll " ".toList '/' '-' = " ".toList := by decide
  simp only [JiraClient.issueName, Time.Format, jiraDateLayout, tempoDateLayout,
    ReplaceAll_append, hsep, hsp, ReplaceAll_of_no_slash _ (appendInt_no_slash _ _),
    ReplaceAll_of_no_slash _ (Weekday_String_no_slash _)]

theorem CreateIssue_trace (env : Env) (c : JiraClient) (date : Time) (tr : List Call) :
    (c.CreateIssue env date tr).2 =
      tr ++ [.issueCreate (issueReq c.MyUser.AccountID c.ProjectKey (c.issueName date))] := by
  simp only [JiraClient.CreateIssue, JiraClient.createIssue]
  cases env.issueCreate tr (issueReq c.MyUser.AccountID c.ProjectKey (c.issueName date)) with
  | ok issue => rfl
  | error err res => cases res <;> rfl

theorem FindIssue_trace (env : Env) (c : JiraClient) (email : List Char) (date : Time)
    (tr : List Call) :
    (c.FindIssue env email date tr).2 =
      tr ++ [.issueSearch (findIssueJQL email (c.issueName date)
        (ReplaceAll (c.issueName date) '/' '-') c.ProjectKey)] := by
  simp only [JiraClient.FindIssue]
  cases env.issueSearch tr (findIssueJQL email (c.issueName date)
      (ReplaceAll (c.issueName date) '/' '-') c.ProjectKey) with
  | error err res => cases res <;> rfl
  | ok issues =>
    simp only
    split <;> rfl

/-- C6: for every date, the summary `CreateIssue` sends is `issueName date`, the text
`YYYY/MM/DD Weekday`; the query `FindIssue` sends for the same date has that very text as
its first summary term and, as its second summary term, the same text with every `/`
replaced by `-`, which is `YYYY-MM-DD Weekday`. A ticket whose summary is either of the
two texts is therefore named by one of the two summary terms of the query. -/
theorem issueName_round_trip (env : Env) (c : JiraClient) (email : List Char) (date : Time)
    (tr : List Call) :
    (c.CreateIssue env date tr).2 =
      tr ++ [.issueCreate ⟨[], [], some ⟨c.MyUser.AccountID, c.ProjectKey,
        c.issueName date, "Task".toList⟩⟩] ∧
    c.issueName date = date.Format jiraDateLayout ++ " ".toList ++ date.Weekday.String ∧
    ReplaceAll (c.issueName date) '/' '-' =
      date.Format tempoDateLayout ++ " ".toList ++ date.Weekday.String ∧
    (c.FindIssue env email date tr).2 =
      tr ++ [.issueSearch ("assignee = \"".toList ++ email
        ++ "\" AND (summary ~ \"".toList ++ c.issueName date
        ++ "\" OR summary ~ \"".toList
        ++ (date.Format tempoDateLayout ++ " ".toList ++ date.Weekday.String)
        ++ "\") AND project = \"".toList ++ c.ProjectKey ++ "\"".toList)] := by
  refine ⟨CreateIssue_trace env c date tr, rfl, ReplaceAll_issueName c date, ?_⟩
  rw [FindIssue_trace, ReplaceAll_issueName]
  rfl

/-- C6 (example): for 5 March 2024 the summary is `2024/03/05 Tuesday` and the query names
it and `2024-03-05 Tuesday`. -/
theorem issueName_round_trip_witness :
    (⟨⟨"me".toList, "me@x.org".toList⟩, "TS".toList⟩ : JiraClient).issueName
        ⟨1709596800000000000, UTC⟩ = "2024/03/05 Tuesday".toList ∧
    ((⟨⟨"me".toList, "me@x.org".toList⟩, "TS".toList⟩ : JiraClient).FindIssue
        (serviceWith [] []) "me@x.org".toList ⟨1709596800000000000, UTC⟩ []).2 =
      [.issueSearch ("assignee = \"me@x.org\" AND (summary ~ \"2024/03/05 Tuesday\"".toList
        ++ " OR summary ~ \"2024-03-05 Tuesday\") AND project = \"TS\"".toList)] :=
  ⟨by decide,
    (issueName_round_trip (serviceWith [] []) ⟨⟨"me".toList, "me@x.org".toList⟩, "TS".toList⟩
      "me@x.org".toList ⟨1709596800000000000, UTC⟩ []).2.2.2⟩

/-! ## Claims about the orchestration -/

theorem parseArgs_week_epoch :
    parseArgs ⟨0, UTC⟩ ["week".toList] =
      .ok ([⟨-259200000000000, UTC⟩, ⟨-172800000000000, UTC⟩, ⟨-86400000000000, UTC⟩,
        ⟨0, UTC⟩, ⟨86400000000000, UTC⟩], 8) := by
  have hw0 : "week".toList = week ++ [] := rfl
  have hz : mulInt64 (mulInt64 0 7) day = 0 := by decide
  rw [hw0, parseArgs_week_token, Atoi_nil, hz, appendWeekdays_nil,
    rewindToMonday_steady _ (steady_six _ 6 (by decide) (UTC_steady 0 6))]
  rfl

theorem parseArgs_today_epoch :
    parseArgs ⟨0, UTC⟩ ["today".toList] = .ok ([⟨0, UTC⟩], 8) := by
  have hw0 : "today".toList = today ++ [] := rfl
  have hz : mulInt64 0 day = 0 := by decide
  rw [hw0, parseArgs_today_token, Atoi_nil, hz]
  rfl

/-- C5 (the code at the failing input): when the issue tracker cannot be reached, the
library returns its error with a nil response, `jiraResponseErr` reads `res.Response`, and
the process panics inside `CreateIssue`: `Log` does not return the error, and `log week`
ends after the creation request of the first date (Monday) instead of going on to the
other four. When the tracker answers with an HTTP error, the response is there, `Log`
returns the error without a request to the time-log service, and the loop makes the
creation request of every date, in order. When the tracker creates the ticket, `Log`
follows the creation request with the one POST of the worklog for the same date, the same
hours and the key of the created ticket. -/
theorem ActionLog_transport_failure (t : Timesheet) :
    (∀ (date : Time) (hours : Int) (tr : List Call),
      t.Log trackerUnreachable date hours tr =
        (.panic, tr ++ [.issueCreate
          (issueReq t.jira.MyUser.AccountID t.jira.ProjectKey (t.jira.issueName date))])) ∧
    ActionLog trackerUnreachable t ⟨0, UTC⟩ ["week".toList] [] =
      (.panic, [.issueCreate
        (issueReq t.jira.MyUser.AccountID t.jira.ProjectKey "1969/12/29 Monday".toList)]) ∧
    (∀ (date : Time) (hours : Int) (tr : List Call),
      t.Log trackerRefuses date hours tr =
        (.error "jira error: request failed".toList, tr ++ [.issueCreate
          (issueReq t.jira.MyUser.AccountID t.jira.ProjectKey (t.jira.issueName date))])) ∧
    ActionLog trackerRefuses t ⟨0, UTC⟩ ["week".toList] [] =
      (.done,
        [.issueCreate
          (issueReq t.jira.MyUser.AccountID t.jira.ProjectKey "1969/12/29 Monday".toList),
        .issueCreate
          (issueReq t.jira.MyUser.AccountID t.jira.ProjectKey "1969/12/30 Tuesday".toList),
        .issueCreate
          (issueReq t.jira.MyUser.AccountID t.jira.ProjectKey "1969/12/31 Wednesday".toList),
        .issueCreate
          (issueReq t.jira.MyUser.AccountID t.jira.ProjectKey "1970/01/01 Thursday".toList),
        .issueCreate
          (issueReq t.jira.MyUser.AccountID t.jira.ProjectKey "1970/01/02 Friday".toList)]) ∧
    ActionLog (serviceWith [] []) t ⟨0, UTC⟩ ["today".toList] [] =
      (.done,
        [.issueCreate
          (issueReq t.jira.MyUser.AccountID t.jira.ProjectKey "1970/01/01 Thursday".toList),
        .tempo ⟨"POST".toList, "https://api.tempo.io/core/3/worklogs".toList,
          "application/json".toList, "Bearer ".toList ++ t.tempo.token,
          some (t.tempo.newWorklog ⟨0, UTC⟩ 8 "TS-1".toList)⟩]) := by
  refine ⟨?_, ?_, ?_, ?_, ?_⟩
  · intro date hours tr
    rfl
  · simp only [ActionLog, parseArgs_week_epoch]
    rfl
  · intro date hours tr
    rfl
  · simp only [ActionLog, parseArgs_week_epoch]
    rfl
  · simp only [ActionLog, parseArgs_today_epoch]
    rfl

end Tempo
